import Mathlib

/-!
Verification development for the clap-mcp translation layer
(`src/clap-mcp/src/lib.rs`): schema extraction (`extract_subcommands`),
invocation marshalling and dispatch (`call_tool`), and tool listing
(`list_tools`).  The underlying command-schema engine (the `clap` crate)
is an external collaborator of the repository; its parse and conversion
steps are modelled from the specification where needed.
-/

namespace ClapMcp

/-- JSON values as they arrive in an invocation request
(`serde_json::Value`).  Numbers are modelled as integers; the marshaller
only ever uses their decimal text form. -/
inductive Json where
  | str (s : String)
  | num (n : Int)
  | bool (b : Bool)
  | null
  | arr (elems : List Json)

mutual

/-- Compact JSON text rendering, used only by the marshaller's catch-all
branch (`value.to_string()` on shapes other than string, number, bool). -/
def Json.serialize : Json → String
  | .str s => "\"" ++ s ++ "\""
  | .num n => toString n
  | .bool b => if b then "true" else "false"
  | .null => "null"
  | .arr elems => "[" ++ String.intercalate "," (Json.serializeList elems) ++ "]"

/-- Renderings of a list of JSON values, for `Json.serialize`. -/
def Json.serializeList : List Json → List String
  | [] => []
  | v :: rest => v.serialize :: Json.serializeList rest

end

/-- One argument of a subcommand, as the adapted command schema exposes it
through the `clap` introspection getters used in `extract_subcommands`:
`get_id`, `get_long`, `get_short`, `is_hide_set`,
`get_num_args().map(min_values)`, `is_required_set`, `get_help`,
`get_index`. -/
structure Arg where
  id : String
  long : Option String := none
  short : Option Char := none
  hide : Bool := false
  numArgsMin : Option Nat := none
  required : Bool := false
  help : Option String := none
  index : Option Nat := none
  deriving Repr, DecidableEq

/-- One top-level subcommand of the augmented command tree
(`T::augment_subcommands(clap::Command::new("mcp"))`), as exposed through
`get_subcommands`, `get_name`, `get_about`, `get_arguments`.  The `hide`
flag records whether the subcommand is marked hidden in the schema;
`get_subcommands` yields hidden subcommands as well. -/
structure Subcommand where
  name : String
  about : Option String := none
  hide : Bool := false
  args : List Arg := []
  deriving Repr, DecidableEq

/-- The command schema: the ordered list of top-level subcommands. -/
abbrev Schema := List Subcommand

/-- The per-property JSON schema built for one argument: `type`,
optional `description`, and the `x-positional` / `x-position` metadata
extensions (present only for positional arguments). -/
structure PropSchema where
  type : String
  description : Option String := none
  xPositional : Option Bool := none
  xPosition : Option Nat := none
  deriving Repr, DecidableEq

/-- A tool descriptor: name, description, the `properties` mapping of the
input schema (association list in argument declaration order) and its
`required` list. -/
structure Tool where
  name : String
  description : String
  properties : List (String × PropSchema) := []
  required : List String := []
  deriving Repr, DecidableEq

/-- An argument survives extraction unless it is hidden or is the
implicit `help` / `version` argument
(`arg.is_hide_set() || arg.get_id() == "help" || arg.get_id() == "version"`). -/
def surfaced (a : Arg) : Bool :=
  !(a.hide || a.id == "help" || a.id == "version")

/-- `arg.get_long().is_none() && arg.get_short().is_none()`. -/
def argIsPositional (a : Arg) : Bool :=
  a.long.isNone && a.short.isNone

/-- `if arg.get_num_args().map(|r| r.min_values()).unwrap_or(0) == 0
\x7b "boolean" \x7d else \x7b "string" \x7d`. -/
def argType (a : Arg) : String :=
  if a.numArgsMin.getD 0 == 0 then "boolean" else "string"

/-- The property schema built for one surfaced argument, given the value
`cnt` of the running positional counter at that point. -/
def mkSchema (a : Arg) (cnt : Nat) : PropSchema :=
  { type := argType a
    description := a.help
    xPositional := if argIsPositional a then some true else none
    xPosition := if argIsPositional a then some (a.index.getD cnt) else none }

/-- The argument loop of `extract_subcommands`: walks the argument list
with the running `positional_count` (which advances only when a
positional argument without a declared index consumes it), collecting the
`properties` entries and the `required` list. -/
def extractArgs : List Arg → Nat → List (String × PropSchema) × List String
  | [], _ => ([], [])
  | a :: rest, cnt =>
    if surfaced a then
      let cnt' := if argIsPositional a && a.index.isNone then cnt + 1 else cnt
      let (props, req) := extractArgs rest cnt'
      ((a.id, mkSchema a cnt) :: props, if a.required then a.id :: req else req)
    else
      extractArgs rest cnt

/-- The tool descriptor built for one subcommand. -/
def toolOf (sc : Subcommand) : Tool :=
  let (props, req) := extractArgs sc.args 0
  { name := sc.name
    description := sc.about.getD ""
    properties := props
    required := req }

/-- `extract_subcommands`: one descriptor per top-level subcommand, in
the schema's own order.  The loop iterates `cmd.get_subcommands()`, which
yields every subcommand, hidden or not. -/
def extractSubcommands (cmd : Schema) : List Tool :=
  cmd.map toolOf

/-- Property lookup in a (possibly absent) tool descriptor, as performed
by `call_tool` through `input_schema.get("properties").and_then(...)`. -/
def lookupProp (tool? : Option Tool) (key : String) : Option PropSchema :=
  tool?.bind fun t => t.properties.lookup key

/-- Is `key` classified positional by the descriptor?
(`...get("x-positional").and_then(as_bool).unwrap_or(false)`). -/
def keyIsPositional (tool? : Option Tool) (key : String) : Bool :=
  (((lookupProp tool? key).bind fun s => s.xPositional) : Option Bool).getD false

/-- The position used for a positional key:
`...get("x-position").and_then(as_u64).unwrap_or(positional_args.len())`. -/
def keyPosition (tool? : Option Tool) (key : String) (dflt : Nat) : Nat :=
  (((lookupProp tool? key).bind fun s => s.xPosition) : Option Nat).getD dflt

/-- The partition loop of `call_tool`: walks the argument mapping in
iteration order, appending positional entries (with their resolved
position) to `posAcc` and named entries to `namedAcc`.  The Rust code
collects named entries into a `HashMap` whose iteration order is
unspecified; the model determinises it to insertion order (request
mappings are JSON objects, so keys are distinct and insertion never
overwrites). -/
def partitionArgsAux (tool? : Option Tool) :
    List (String × Json) → List (String × Json × Nat) → List (String × Json) →
      List (String × Json × Nat) × List (String × Json)
  | [], posAcc, namedAcc => (posAcc, namedAcc)
  | (k, v) :: rest, posAcc, namedAcc =>
    if keyIsPositional tool? k then
      partitionArgsAux tool? rest
        (posAcc ++ [(k, v, keyPosition tool? k posAcc.length)]) namedAcc
    else
      partitionArgsAux tool? rest posAcc (namedAcc ++ [(k, v)])

/-- Textual form of a positional value (the `match value` in the
positional loop of `call_tool`). -/
def renderPositional : Json → String
  | .str s => s
  | .num n => toString n
  | .bool b => if b then "true" else "false"
  | v => v.serialize

/-- Tokens appended for one named entry (the `match value` in the named
loop of `call_tool`): boolean `true` is a lone flag token, boolean
`false` emits nothing, every other shape emits the flag token followed by
a value token. -/
def namedTokens (k : String) : Json → List String
  | .bool b => if b then ["--" ++ k] else []
  | .str s => ["--" ++ k, s]
  | .num n => ["--" ++ k, toString n]
  | v => ["--" ++ k, v.serialize]

/-- The stable sort of the positional entries by their position
(`positional_args.sort_by_key(|&(_, _, pos)| pos)`; Rust's slice sort is
stable, as is insertion sort). -/
def sortByPos (l : List (String × Json × Nat)) : List (String × Json × Nat) :=
  List.insertionSort (fun a b => a.2.2 ≤ b.2.2) l

/-- The token sequence `call_tool` builds for a request: the synthetic
program name `"mcp"`, the tool name, the positional values sorted by
position, then the named-argument tokens. -/
def marshalTokens (tools : List Tool) (toolName : String)
    (arguments : List (String × Json)) : List String :=
  let tool? := tools.find? fun t => t.name == toolName
  let (posArgs, namedArgs) := partitionArgsAux tool? arguments [] []
  ["mcp", toolName]
    ++ (sortByPos posArgs).map (fun e => renderPositional e.2.1)
    ++ namedArgs.flatMap fun e => namedTokens e.1 e.2

/-- Modelled from the spec: the first token of a named-argument
invocation token (`--name`) stripped of its two leading dashes; `none`
for a token that does not begin with `--`.  The external command-schema
engine is not part of this repository; this helper supports its
spec-level model below. -/
def stripDashes (t : String) : Option String :=
  match t.data with
  | '-' :: '-' :: rest => some (String.mk rest)
  | _ => none

/-- Modelled from the spec: the matched-arguments structure returned by
the external parser — the resolved subcommand name and the recognised
arguments (argument identifier, optional raw value; flags carry no
value). -/
structure Matches where
  sub : String
  found : List (String × Option String)
  deriving Repr, DecidableEq

/-- Modelled from the spec: the token-consumption loop of the external
command-schema engine.  A `--name` token selects the named argument with
that identifier (a flag records no value, a value-bearing argument
consumes the next token); any other token fills the next positional
argument slot; an unrecognised name or a surplus positional token is a
parse error. -/
def parseTokens (args : List Arg) :
    List String → List Arg → List (String × Option String) →
      Except String (List (String × Option String))
  | [], _, acc => .ok acc
  | t :: rest, posLeft, acc =>
    match stripDashes t with
    | some name =>
      match args.find? (fun a => !argIsPositional a && a.id == name) with
      | none => .error ("unexpected argument " ++ t)
      | some a =>
        if a.numArgsMin.getD 0 == 0 then
          parseTokens args rest posLeft (acc ++ [(a.id, none)])
        else
          match rest with
          | [] => .error ("a value is required for " ++ t)
          | v :: rest2 => parseTokens args rest2 posLeft (acc ++ [(a.id, some v)])
    | none =>
      match posLeft with
      | [] => .error ("unexpected argument " ++ t)
      | p :: ps => parseTokens args rest ps (acc ++ [(p.id, some t)])

/-- Modelled from the spec: the external parser applied to the full
command tree (`cmd.try_get_matches_from(&args)`).  It resolves which
subcommand the second token names, consumes the remaining tokens against
that subcommand's arguments, and then rejects the sequence if any
required argument is missing. -/
def tryGetMatches (cmd : Schema) : List String → Except String Matches
  | [] => .error "empty invocation"
  | [_] => .error "missing subcommand"
  | _prog :: sub :: argTokens =>
    match cmd.find? (fun sc => sc.name == sub) with
    | none => .error ("unrecognized subcommand " ++ sub)
    | some sc =>
      match parseTokens sc.args argTokens (sc.args.filter argIsPositional) [] with
      | .error e => .error e
      | .ok found =>
        if sc.args.any (fun a => a.required && (found.lookup a.id).isNone) then
          .error ("missing required arguments for " ++ sub)
        else
          .ok ⟨sc.name, found⟩

/-- A tool-call result (`CallToolResult`): content items plus the error
flag (`CallToolResult::success` / `CallToolResult::error`). -/
inductive CallResult where
  | success (content : List String)
  | errorResult (content : List String)
  deriving Repr, DecidableEq

/-- The outcome of `call_tool`: a protocol result, or a protocol-level
error (`McpError::invalid_params`) carrying a message. -/
inductive CallOutcome where
  | ok (r : CallResult)
  | protocolError (message : String)
  deriving Repr, DecidableEq

/-- The fixed message returned when no handler is registered. -/
def noHandlerMsg : String :=
  "No command handler provided. The CLI must provide a handler function to execute commands in MCP mode."

/-- The server handler state: the optionally registered command handler
(`ClapMcpHandler \x7b handler: Option<Arc<CommandHandler<T>>> \x7d`).
`V` is the typed command value produced by conversion; the handler
returns `Result<String, String>`. -/
structure HandlerState (V : Type) where
  handler : Option (V → Except String String)

/-- `call_tool`: defaults an absent argument mapping to empty, extracts
the descriptors, marshals the request into a token sequence, parses it
against the full command tree, converts the match into a typed command
value (`conv` models the schema's own `T::from_arg_matches` step, which
can fail independently), then dispatches to the registered handler. -/
def callTool {V : Type} (cmd : Schema) (conv : Matches → Except String V)
    (st : HandlerState V) (toolName : String)
    (arguments? : Option (List (String × Json))) : CallOutcome :=
  let arguments := arguments?.getD []
  let tools := extractSubcommands cmd
  let args := marshalTokens tools toolName arguments
  match tryGetMatches cmd args with
  | .error e => .protocolError ("Invalid arguments: " ++ e)
  | .ok m =>
    match conv m with
    | .error e => .protocolError ("Failed to parse subcommand: " ++ e)
    | .ok v =>
      match st.handler with
      | some h =>
        match h v with
        | .ok output => .ok (.success [output])
        | .error e => .ok (.errorResult [e])
      | none => .ok (.errorResult [noHandlerMsg])

/-- `list_tools`: returns the extracted descriptors; the handler state is
never consulted. -/
def listTools {V : Type} (cmd : Schema) (_st : HandlerState V) : List Tool :=
  extractSubcommands cmd

/-- The argument list paired with the value the running positional
counter has when each argument is processed (the counter advances only
when a positional argument without a declared index consumes it). -/
def withCounters : List Arg → Nat → List (Arg × Nat)
  | [], _ => []
  | a :: rest, cnt =>
    (a, cnt) :: withCounters rest (if argIsPositional a && a.index.isNone then cnt + 1 else cnt)

/-- The positional entry (with its descriptor position) contributed by
one mapping entry whose key has an explicit `x-position`; `none` for
named keys. -/
def posEntry (tool? : Option Tool) (e : String × Json) : Option (String × Json × Nat) :=
  if keyIsPositional tool? e.1 then some (e.1, e.2, keyPosition tool? e.1 0) else none

/-- Concrete mixed subcommand (two positionals around a named flag) used
to witness the marshalled token order and the round-trip property. -/
def c3mixed : Subcommand :=
  { name := "mixed",
    args := [{ id := "input", numArgsMin := some 1, required := true },
             { id := "verbose", long := some "verbose", short := some 'v',
               numArgsMin := some 0 },
             { id := "output", numArgsMin := some 1, required := true }] }

/-- Concrete mixed schema used to witness the marshalled token order. -/
def c3cmd : Schema := [c3mixed]

/-- Subcommand with a required boolean flag, the round-trip
counterexample: supplying the flag as false marshals no token, so the
parser reports the required argument as missing. -/
def c1sc : Subcommand :=
  { name := "t",
    args := [{ id := "f", long := some "f", numArgsMin := some 0, required := true }] }

/-- Schema of the round-trip counterexample. -/
def c1cmd : Schema := [c1sc]

/-- Concrete argument mapping, deliberately out of positional order, used
to witness the marshalled token order. -/
def c3args : List (String × Json) :=
  [("output", Json.str "bar.txt"), ("verbose", Json.bool true), ("input", Json.str "foo.txt")]

/-- The positional arguments of a subcommand paired with their running
counter values, in declaration order (surfaced arguments only). -/
def posPT (sc : Subcommand) : List (Arg × Nat) :=
  (withCounters (sc.args.filter fun x => surfaced x) 0).filter fun e => argIsPositional e.1

/-- The canonical positional entries a well-formed request must marshal:
the first `n` positional arguments in declaration order, each with its
supplied value and extracted position. -/
def targetEntries (sc : Subcommand) (m : List (String × Json)) (n : Nat) :
    List (String × Json × Nat) :=
  ((posPT sc).take n).map fun w => (w.1.id, (m.lookup w.1.id).getD Json.null, w.1.index.getD w.2)

/-- The record the modelled parser produces for one named entry:
a true flag records the identifier with no value, a false flag records
nothing, a string records the identifier with the value. -/
def namedRecord (k : String) : Json → List (String × Option String)
  | .bool b => if b then [(k, none)] else []
  | .str s => [(k, some s)]
  | _ => []

/-- Concrete two-required-argument schema used for the error-taxonomy
instances (missing required argument, unknown tool). -/
def c7cmd : Schema :=
  [{ name := "add",
     args := [{ id := "a", long := some "a", short := some 'a',
                numArgsMin := some 1, required := true },
              { id := "b", long := some "b", short := some 'b',
                numArgsMin := some 1, required := true }] }]

/-- Schema whose two positional arguments collide on position: the first
carries explicit index 0 while the second, lacking an index, receives
counter value 0 (the counter advances only when it is consumed, so an
explicitly indexed positional does not advance it). -/
def c3tie : Schema :=
  [{ name := "tie",
     args := [{ id := "p1", numArgsMin := some 1, index := some 0 },
              { id := "p2", numArgsMin := some 1 }] }]

/-- Concrete subcommand used to witness descriptor content and
positional classification: one positional argument, one named flag and
the implicit help argument. -/
def c5sc : Subcommand :=
  { name := "mixed",
    args := [{ id := "input", numArgsMin := some 1, required := true },
             { id := "verbose", long := some "verbose", short := some 'v',
               numArgsMin := some 0 },
             { id := "help", long := some "help" }] }

/-- Concrete two-argument schema used to witness the boolean
named-argument encoding. -/
def c2cmd : Schema :=
  [{ name := "hello",
     args := [{ id := "name", long := some "name", numArgsMin := some 1, required := true },
              { id := "excited", long := some "excited", numArgsMin := some 0 }] }]

/-- Concrete one-subcommand schema used to witness the dispatcher
mapping. -/
def c8cmd : Schema := [{ name := "t" }]

/-- Concrete conversion step used to witness the dispatcher mapping. -/
def c8conv (mt : Matches) : Except String String := .ok mt.sub

/-! ### Decomposition of the marshalled token sequence -/

/-- The positional entries collected from a mapping, with their resolved
positions, given the number `len` of positional entries already
collected. -/
def posOnly (tool? : Option Tool) : List (String × Json) → Nat → List (String × Json × Nat)
  | [], _ => []
  | (k, v) :: rest, len =>
    if keyIsPositional tool? k then
      (k, v, keyPosition tool? k len) :: posOnly tool? rest (len + 1)
    else
      posOnly tool? rest len

/-- The sorted positional entries of a request's mapping. -/
def sortedPositionals (tools : List Tool) (toolName : String)
    (m : List (String × Json)) : List (String × Json × Nat) :=
  sortByPos (posOnly (tools.find? fun t => t.name == toolName) m 0)

/-- The positional-token segment of the marshalled sequence. -/
def posSegment (tools : List Tool) (toolName : String)
    (m : List (String × Json)) : List String :=
  (sortedPositionals tools toolName m).map fun e => renderPositional e.2.1

/-- The named-token segment of the marshalled sequence. -/
def namedSegment (tools : List Tool) (toolName : String)
    (m : List (String × Json)) : List String :=
  (m.filter fun e => !keyIsPositional (tools.find? fun t => t.name == toolName) e.1).flatMap
    fun e => namedTokens e.1 e.2

lemma partitionArgsAux_eq (tool? : Option Tool) :
    ∀ (m : List (String × Json)) (posAcc : List (String × Json × Nat))
      (namedAcc : List (String × Json)),
      partitionArgsAux tool? m posAcc namedAcc
        = (posAcc ++ posOnly tool? m posAcc.length,
           namedAcc ++ m.filter fun e => !keyIsPositional tool? e.1)
  | [], posAcc, namedAcc => by simp [partitionArgsAux, posOnly]
  | (k, v) :: rest, posAcc, namedAcc => by
    by_cases h : keyIsPositional tool? k
    · simp only [partitionArgsAux, posOnly, h, if_pos, List.filter_cons, Bool.not_true,
        partitionArgsAux_eq tool? rest]
      simp [List.append_assoc]
    · simp only [partitionArgsAux, posOnly, h, if_neg, List.filter_cons,
        partitionArgsAux_eq tool? rest, Bool.not_eq_true]
      simp [h]

lemma marshalTokens_decompose (tools : List Tool) (toolName : String)
    (m : List (String × Json)) :
    marshalTokens tools toolName m
      = ["mcp", toolName] ++ posSegment tools toolName m ++ namedSegment tools toolName m := by
  simp [marshalTokens, partitionArgsAux_eq, posSegment, namedSegment, sortedPositionals]

lemma posOnly_middle_named (tool? : Option Tool) (k : String) (v : Json)
    (h : keyIsPositional tool? k = false) :
    ∀ (m₁ m₂ : List (String × Json)) (len : Nat),
      posOnly tool? (m₁ ++ (k, v) :: m₂) len = posOnly tool? (m₁ ++ m₂) len
  | [], m₂, len => by simp [posOnly, h]
  | (k1, v1) :: m₁, m₂, len => by
    by_cases h1 : keyIsPositional tool? k1 <;>
      simp [posOnly, h1, posOnly_middle_named tool? k v h m₁ m₂]

lemma namedSegment_middle (tools : List Tool) (toolName k : String) (v : Json)
    (m₁ m₂ : List (String × Json))
    (h : keyIsPositional (tools.find? fun t => t.name == toolName) k = false) :
    namedSegment tools toolName (m₁ ++ (k, v) :: m₂)
      = namedSegment tools toolName m₁ ++ namedTokens k v ++ namedSegment tools toolName m₂ := by
  simp [namedSegment, List.filter_append, List.filter_cons, h]

lemma posSegment_middle_named (tools : List Tool) (toolName k : String) (v : Json)
    (m₁ m₂ : List (String × Json))
    (h : keyIsPositional (tools.find? fun t => t.name == toolName) k = false) :
    posSegment tools toolName (m₁ ++ (k, v) :: m₂) = posSegment tools toolName (m₁ ++ m₂) := by
  simp [posSegment, sortedPositionals, posOnly_middle_named _ k v h]

lemma extractArgs_eq : ∀ (args : List Arg) (cnt : Nat),
    extractArgs args cnt
      = ((withCounters (args.filter fun a => surfaced a) cnt).map fun e =>
            (e.1.id, mkSchema e.1 e.2),
         (args.filter fun a => surfaced a && a.required).map fun a => a.id)
  | [], cnt => by simp [extractArgs, withCounters]
  | a :: rest, cnt => by
    by_cases h : surfaced a
    · by_cases hr : a.required <;>
        simp [extractArgs, withCounters, h, hr, List.filter_cons, extractArgs_eq rest]
    · simp [extractArgs, h, List.filter_cons, extractArgs_eq rest]

lemma withCounters_map_fst : ∀ (l : List Arg) (cnt : Nat),
    (withCounters l cnt).map Prod.fst = l
  | [], _ => rfl
  | a :: rest, cnt => by simp [withCounters, withCounters_map_fst rest]

lemma withCounters_length (l : List Arg) (cnt : Nat) :
    (withCounters l cnt).length = l.length := by
  have := congrArg List.length (withCounters_map_fst l cnt)
  simpa using this

lemma withCounters_get : ∀ (l : List Arg) (cnt : Nat) (i : Nat)
    (h1 : i < (withCounters l cnt).length) (h2 : i < l.length),
    (withCounters l cnt).get ⟨i, h1⟩
      = (l.get ⟨i, h2⟩,
         cnt + ((l.take i).filter fun b => argIsPositional b && b.index.isNone).length)
  | a :: rest, cnt, 0, _, _ => by simp [withCounters]
  | a :: rest, cnt, i + 1, h1, h2 => by
    have h1' : i < (withCounters rest
        (if argIsPositional a && a.index.isNone then cnt + 1 else cnt)).length := by
      simpa [withCounters] using h1
    have h2' : i < rest.length := by simpa using h2
    have ih := withCounters_get rest
      (if argIsPositional a && a.index.isNone then cnt + 1 else cnt) i h1' h2'
    have hL : (withCounters (a :: rest) cnt).get ⟨i + 1, h1⟩
        = (withCounters rest
            (if argIsPositional a && a.index.isNone then cnt + 1 else cnt)).get ⟨i, h1'⟩ := rfl
    have hR : (a :: rest).get ⟨i + 1, h2⟩ = rest.get ⟨i, h2'⟩ := rfl
    rw [hL, ih, hR, List.take_succ_cons, List.filter_cons]
    by_cases hf : (argIsPositional a && a.index.isNone) = true
    · simp only [hf, if_true, List.length_cons, Prod.mk.injEq]
      exact ⟨trivial, by omega⟩
    · simp only [hf, Bool.false_eq_true, if_false, Prod.mk.injEq]

lemma argIsPositional_iff (a : Arg) :
    argIsPositional a = true ↔ (a.long = none ∧ a.short = none) := by
  simp [argIsPositional, Option.isNone_iff_eq_none]

lemma descriptor_content_aux : ∀ (l : List Arg) (cnt : Nat),
    List.Forall₂ (fun (p : String × PropSchema) (a : Arg) =>
        p.1 = a.id
          ∧ (a.numArgsMin.getD 0 = 0 → p.2.type = "boolean")
          ∧ (a.numArgsMin.getD 0 ≠ 0 → p.2.type = "string"))
      ((withCounters l cnt).map fun e => (e.1.id, mkSchema e.1 e.2)) l
  | [], _ => List.Forall₂.nil
  | a :: rest, cnt => by
    refine List.Forall₂.cons ⟨rfl, ?_, ?_⟩ (descriptor_content_aux rest _)
    · intro h; simp [mkSchema, argType, h]
    · intro h; simp [mkSchema, argType, h]

lemma toolOf_properties (sc : Subcommand) :
    (toolOf sc).properties
      = (withCounters (sc.args.filter fun a => surfaced a) 0).map fun e =>
          (e.1.id, mkSchema e.1 e.2) := by
  simp [toolOf, extractArgs_eq]

lemma toolOf_required (sc : Subcommand) :
    (toolOf sc).required
      = (sc.args.filter fun a => surfaced a && a.required).map fun a => a.id := by
  simp [toolOf, extractArgs_eq]

lemma keyPosition_of_isSome (tool? : Option Tool) (k : String) (d : Nat)
    (h : (((lookupProp tool? k).bind fun s => s.xPosition)).isSome) :
    keyPosition tool? k d = keyPosition tool? k 0 := by
  obtain ⟨x, hx⟩ := Option.isSome_iff_exists.mp h
  simp [keyPosition, hx]

lemma posOnly_eq_filterMap (tool? : Option Tool) :
    ∀ (m : List (String × Json)),
      (∀ e ∈ m, keyIsPositional tool? e.1 = true →
        (((lookupProp tool? e.1).bind fun s => s.xPosition)).isSome) →
      ∀ len, posOnly tool? m len = m.filterMap (posEntry tool?)
  | [], _, len => by simp [posOnly]
  | e :: rest, hx, len => by
    have hrest := posOnly_eq_filterMap tool? rest fun x hxm => hx x (List.mem_cons_of_mem _ hxm)
    by_cases h : keyIsPositional tool? e.1 = true
    · have hp := keyPosition_of_isSome tool? e.1 len (hx e (List.mem_cons_self _ _) h)
      cases e with
      | mk k v => simp_all [posOnly, posEntry, List.filterMap_cons]
    · cases e with
      | mk k v => simp_all [posOnly, posEntry, List.filterMap_cons]

lemma sortByPos_perm (l : List (String × Json × Nat)) : List.Perm (sortByPos l) l :=
  List.perm_insertionSort _ l

lemma sortByPos_sorted (l : List (String × Json × Nat)) :
    (sortByPos l).Pairwise fun a b => a.2.2 ≤ b.2.2 := by
  haveI : IsTotal (String × Json × Nat) (fun a b => a.2.2 ≤ b.2.2) :=
    ⟨fun a b => Nat.le_total _ _⟩
  haveI : IsTrans (String × Json × Nat) (fun a b => a.2.2 ≤ b.2.2) :=
    ⟨fun _ _ _ => Nat.le_trans⟩
  exact List.sorted_insertionSort _ l

lemma eq_of_perm_sorted_nodupPos (l₁ l₂ : List (String × Json × Nat))
    (hperm : List.Perm l₁ l₂)
    (hs₁ : l₁.Pairwise fun a b => a.2.2 ≤ b.2.2)
    (hs₂ : l₂.Pairwise fun a b => a.2.2 ≤ b.2.2)
    (hnd : (l₁.map fun e => e.2.2).Nodup) : l₁ = l₂ := by
  have hnd₂ : (l₂.map fun e => e.2.2).Nodup := ((hperm.map _).nodup_iff).mp hnd
  have hne₁ : l₁.Pairwise fun a b => a.2.2 ≠ b.2.2 := List.pairwise_map.mp hnd
  have hne₂ : l₂.Pairwise fun a b => a.2.2 ≠ b.2.2 := List.pairwise_map.mp hnd₂
  have hlt₁ : l₁.Pairwise fun a b => a.2.2 < b.2.2 :=
    (hs₁.and hne₁).imp fun h => Nat.lt_of_le_of_ne h.1 h.2
  have hlt₂ : l₂.Pairwise fun a b => a.2.2 < b.2.2 :=
    (hs₂.and hne₂).imp fun h => Nat.lt_of_le_of_ne h.1 h.2
  haveI : IsAntisymm (String × Json × Nat) (fun a b => a.2.2 < b.2.2) :=
    ⟨fun a b h1 h2 => absurd h1 (Nat.lt_asymm h2)⟩
  exact List.eq_of_perm_of_sorted hperm hlt₁ hlt₂

lemma find_tool (cmd : Schema) (toolName : String) :
    ((extractSubcommands cmd).find? fun t => t.name == toolName)
      = (cmd.find? fun sc => sc.name == toolName).map toolOf := by
  induction cmd with
  | nil => rfl
  | cons sc rest ih =>
    show ((toolOf sc :: extractSubcommands rest).find? fun t => t.name == toolName)
      = ((sc :: rest).find? fun x => x.name == toolName).map toolOf
    have hname : (toolOf sc).name = sc.name := rfl
    cases h : sc.name == toolName with
    | true =>
      rw [List.find?_cons_of_pos (p := fun (t : Tool) => t.name == toolName) _
          (show ((toolOf sc).name == toolName) = true from h),
        List.find?_cons_of_pos (p := fun (x : Subcommand) => x.name == toolName) _ h]
      rfl
    | false =>
      rw [List.find?_cons_of_neg (p := fun (t : Tool) => t.name == toolName) _
          (by simp [hname, h]),
        List.find?_cons_of_neg (p := fun (x : Subcommand) => x.name == toolName) _ (by simp [h])]
      exact ih

lemma lookup_eq_some_of_nodup {β : Type} :
    ∀ (m : List (String × β)), (m.map Prod.fst).Nodup →
      ∀ (k : String) (v : β), (k, v) ∈ m → m.lookup k = some v
  | [], _, k, v, hm => by cases hm
  | (k1, v1) :: rest, h, k, v, hm => by
    rw [List.map_cons] at h
    have hnd := List.nodup_cons.mp h
    rcases List.mem_cons.mp hm with he | hr
    · cases he
      simp [List.lookup]
    · have hk : k ≠ k1 := by
        intro hkk
        exact hnd.1 (hkk ▸ List.mem_map.mpr ⟨(k, v), hr, rfl⟩)
      have hb : (k == k1) = false := beq_eq_false_iff_ne.mpr hk
      rw [List.lookup, hb]
      exact lookup_eq_some_of_nodup rest hnd.2 k v hr

lemma lookup_withCounters :
    ∀ (l : List Arg) (cnt : Nat), (l.map Arg.id).Nodup →
      ∀ e ∈ withCounters l cnt,
        (((withCounters l cnt).map fun x => (x.1.id, mkSchema x.1 x.2)).lookup e.1.id)
          = some (mkSchema e.1 e.2)
  | [], _, _, e, he => by cases he
  | a :: rest, cnt, hnd, e, he => by
    rw [List.map_cons] at hnd
    have hnd2 := List.nodup_cons.mp hnd
    rw [withCounters] at he
    rw [withCounters, List.map_cons]
    rcases List.mem_cons.mp he with hh | ht
    · cases hh
      simp [List.lookup]
    · have h1 : e.1 ∈ rest := by
        have h0 : e.1 ∈ (withCounters rest
            (if argIsPositional a && a.index.isNone then cnt + 1 else cnt)).map Prod.fst :=
          List.mem_map.mpr ⟨e, ht, rfl⟩
        rwa [withCounters_map_fst] at h0
      have hne : e.1.id ≠ a.id := by
        intro hk
        exact hnd2.1 (hk ▸ List.mem_map.mpr ⟨e.1, h1, rfl⟩)
      have hb : (e.1.id == a.id) = false := beq_eq_false_iff_ne.mpr hne
      rw [List.lookup]
      rw [show ((a, cnt).1.id : String) = a.id from rfl, hb]
      exact lookup_withCounters rest _ hnd2.2 e ht

lemma withCounters_ids (l : List Arg) (cnt : Nat) :
    (withCounters l cnt).map (fun e => e.1.id) = l.map Arg.id := by
  conv_rhs => rw [← withCounters_map_fst l cnt]
  rw [List.map_map]
  rfl

lemma withCounters_uniq (l : List Arg) (cnt : Nat) (hnd : (l.map Arg.id).Nodup)
    {e e' : Arg × Nat} (he : e ∈ withCounters l cnt) (he' : e' ∈ withCounters l cnt)
    (hid : e.1.id = e'.1.id) : e = e' :=
  List.inj_on_of_nodup_map (f := fun e => e.1.id)
    (by rw [withCounters_ids]; exact hnd) he he' hid

lemma lookupProp_toolOf (sc : Subcommand) (hnd : (sc.args.map Arg.id).Nodup)
    {a : Arg} (ha : a ∈ sc.args) (hs : surfaced a = true) :
    ∃ c, (a, c) ∈ withCounters (sc.args.filter fun x => surfaced x) 0
      ∧ lookupProp (some (toolOf sc)) a.id = some (mkSchema a c) := by
  have haf : a ∈ sc.args.filter (fun x => surfaced x) := List.mem_filter.mpr ⟨ha, hs⟩
  have hmem : a ∈ (withCounters (sc.args.filter fun x => surfaced x) 0).map Prod.fst := by
    rw [withCounters_map_fst]; exact haf
  obtain ⟨e, he, hfst⟩ := List.mem_map.mp hmem
  have hndf : ((sc.args.filter fun x => surfaced x).map Arg.id).Nodup :=
    ((List.filter_sublist _).map Arg.id).nodup hnd
  have hlk := lookup_withCounters (sc.args.filter fun x => surfaced x) 0 hndf e he
  refine ⟨e.2, ?_, ?_⟩
  · cases e with
    | mk e1 e2 => cases hfst; exact he
  · show (toolOf sc).properties.lookup a.id = some (mkSchema a e.2)
    rw [toolOf_properties, ← hfst]
    exact hlk

lemma keyIsPositional_eq (sc : Subcommand) (hnd : (sc.args.map Arg.id).Nodup)
    {a : Arg} (ha : a ∈ sc.args) (hs : surfaced a = true) :
    keyIsPositional (some (toolOf sc)) a.id = argIsPositional a := by
  obtain ⟨c, _, hl⟩ := lookupProp_toolOf sc hnd ha hs
  by_cases hp : argIsPositional a = true
  · simp [keyIsPositional, hl, mkSchema, hp]
  · simp [keyIsPositional, hl, mkSchema, hp]

lemma keyPosition_eq (sc : Subcommand) (hnd : (sc.args.map Arg.id).Nodup)
    {a : Arg} (ha : a ∈ sc.args) (hs : surfaced a = true)
    (hp : argIsPositional a = true) :
    ∃ c, (a, c) ∈ withCounters (sc.args.filter fun x => surfaced x) 0
      ∧ ∀ d, keyPosition (some (toolOf sc)) a.id d = a.index.getD c := by
  obtain ⟨c, hw, hl⟩ := lookupProp_toolOf sc hnd ha hs
  exact ⟨c, hw, fun d => by simp [keyPosition, hl, mkSchema, hp]⟩

lemma find_named_arg : ∀ (l : List Arg), (l.map Arg.id).Nodup →
    ∀ {a : Arg}, a ∈ l → argIsPositional a = false →
      (l.find? fun x => !argIsPositional x && x.id == a.id) = some a
  | [], _, a, ha, _ => by cases ha
  | b :: rest, hnd, a, ha, hp => by
    rw [List.map_cons] at hnd
    have hnd2 := List.nodup_cons.mp hnd
    rcases List.mem_cons.mp ha with he | hr
    · subst he
      exact List.find?_cons_of_pos _ (by simp [hp])
    · have hne : b.id ≠ a.id := fun hk => hnd2.1 (hk ▸ List.mem_map.mpr ⟨a, hr, rfl⟩)
      rw [List.find?_cons_of_neg _ (by simp [beq_eq_false_iff_ne.mpr hne])]
      exact find_named_arg rest hnd2.2 hr hp

lemma filterMap_ite {α β : Type} (p : α → Bool) (f : α → β) :
    ∀ l : List α,
      (l.filterMap fun x => if p x then some (f x) else none) = (l.filter p).map f
  | [] => rfl
  | a :: l => by
    by_cases h : p a <;>
      simp [List.filterMap_cons, List.filter_cons, h, filterMap_ite p f l]

lemma stripDashes_append (s : String) : stripDashes ("--" ++ s) = some s := by
  cases s with
  | mk data => rfl

lemma stripDashes_renderBool (b : Bool) :
    stripDashes (renderPositional (Json.bool b)) = none := by
  cases b <;> decide

lemma parseTokens_positional (args : List Arg) :
    ∀ (toks : List String) (posLeft : List Arg) (acc : List (String × Option String))
      (restToks : List String),
      (∀ t ∈ toks, stripDashes t = none) →
      toks.length ≤ posLeft.length →
      parseTokens args (toks ++ restToks) posLeft acc
        = parseTokens args restToks (posLeft.drop toks.length)
            (acc ++ ((posLeft.take toks.length).zip toks).map fun e => (e.1.id, some e.2))
  | [], posLeft, acc, restToks, _, _ => by simp
  | t :: ts, posLeft, acc, restToks, hs, hlen => by
    cases posLeft with
    | nil => simp at hlen
    | cons p ps =>
      have hst : stripDashes t = none := hs t (List.mem_cons_self _ _)
      show parseTokens args (t :: (ts ++ restToks)) (p :: ps) acc = _
      rw [parseTokens, hst]
      rw [parseTokens_positional args ts ps (acc ++ [(p.id, some t)]) restToks
          (fun x hx => hs x (List.mem_cons_of_mem _ hx)) (by simpa using hlen)]
      simp [List.take_succ_cons, List.zip_cons_cons]

lemma parseTokens_flag_step (args : List Arg) (k : String) (rest : List String)
    (posLeft : List Arg) (acc : List (String × Option String)) (a : Arg)
    (hfind : (args.find? fun x => !argIsPositional x && x.id == k) = some a)
    (h0 : a.numArgsMin.getD 0 = 0) :
    parseTokens args (("--" ++ k) :: rest) posLeft acc
      = parseTokens args rest posLeft (acc ++ [(a.id, none)]) := by
  cases posLeft with
  | nil => rw [parseTokens]; simp [stripDashes_append, hfind, h0]
  | cons p ps => rw [parseTokens]; simp [stripDashes_append, hfind, h0]

lemma parseTokens_value_step (args : List Arg) (k sv : String) (rest : List String)
    (posLeft : List Arg) (acc : List (String × Option String)) (a : Arg)
    (hfind : (args.find? fun x => !argIsPositional x && x.id == k) = some a)
    (hne : a.numArgsMin.getD 0 ≠ 0) :
    parseTokens args (("--" ++ k) :: sv :: rest) posLeft acc
      = parseTokens args rest posLeft (acc ++ [(a.id, some sv)]) := by
  cases posLeft with
  | nil => rw [parseTokens]; simp [stripDashes_append, hfind, hne]
  | cons p ps => rw [parseTokens]; simp [stripDashes_append, hfind, hne]

lemma parseTokens_pos_step (args : List Arg) (t : String) (rest : List String)
    (p : Arg) (ps : List Arg) (acc : List (String × Option String))
    (hst : stripDashes t = none) :
    parseTokens args (t :: rest) (p :: ps) acc
      = parseTokens args rest ps (acc ++ [(p.id, some t)]) := by
  simp [parseTokens, hst]

lemma parseTokens_named (args : List Arg) :
    ∀ (N : List (String × Json)) (posLeft : List Arg)
      (acc : List (String × Option String)),
      (∀ e ∈ N, ∃ a : Arg,
          (args.find? fun x => !argIsPositional x && x.id == e.1) = some a
          ∧ a.id = e.1
          ∧ ((∃ b, e.2 = Json.bool b) ∨ (∃ sv, e.2 = Json.str sv))
          ∧ (∀ b, e.2 = Json.bool b → a.numArgsMin.getD 0 = 0)
          ∧ (∀ sv, e.2 = Json.str sv → a.numArgsMin.getD 0 ≠ 0)) →
      parseTokens args (N.flatMap fun e => namedTokens e.1 e.2) posLeft acc
        = .ok (acc ++ N.flatMap fun e => namedRecord e.1 e.2)
  | [], _, acc, _ => by simp [parseTokens]
  | (k, v) :: N, posLeft, acc, hN => by
    obtain ⟨a, hfind, hid, hshape, hflag, hval⟩ := hN (k, v) (List.mem_cons_self _ _)
    have hN' := fun e he => hN e (List.mem_cons_of_mem _ he)
    have ih := parseTokens_named args N posLeft
    rcases hshape with ⟨b, hb⟩ | ⟨sv, hsv⟩
    · cases hb
      cases b with
      | false =>
        simpa [namedTokens, namedRecord] using parseTokens_named args N posLeft acc hN'
      | true =>
        have h0 : a.numArgsMin.getD 0 = 0 := hflag true rfl
        rw [List.flatMap_cons]
        show parseTokens args (("--" ++ k) :: ([] ++ N.flatMap fun e => namedTokens e.1 e.2))
            posLeft acc = _
        rw [parseTokens_flag_step args k _ posLeft acc a hfind h0, List.nil_append,
          parseTokens_named args N posLeft (acc ++ [(a.id, none)]) hN']
        simp [namedRecord, hid]
    · cases hsv
      have hne : a.numArgsMin.getD 0 ≠ 0 := hval sv rfl
      rw [List.flatMap_cons]
      show parseTokens args (("--" ++ k) :: (sv :: ([] ++ N.flatMap fun e => namedTokens e.1 e.2)))
          posLeft acc = _
      rw [parseTokens_value_step args k sv _ posLeft acc a hfind hne, List.nil_append,
        parseTokens_named args N posLeft (acc ++ [(a.id, some sv)]) hN']
      simp [namedRecord, hid]

lemma take_of_take_length {α : Type} : ∀ (l : List α) (n : Nat),
    l.take ((l.take n).length) = l.take n
  | [], n => by simp
  | a :: l, 0 => by simp
  | a :: l, n + 1 => by simp [take_of_take_length l n]

lemma posEntry_keys (tp : Option Tool) : ∀ (m : List (String × Json)),
    (m.filterMap (posEntry tp)).map (fun x => x.1)
      = (m.filter fun e => keyIsPositional tp e.1).map Prod.fst
  | [] => rfl
  | e :: m => by
    by_cases h : keyIsPositional tp e.1 <;>
      simp [posEntry, List.filterMap_cons, List.filter_cons, h, posEntry_keys tp m]

lemma posPT_map_fst (sc : Subcommand)
    (hpos_surf : ∀ a ∈ sc.args, argIsPositional a = true → surfaced a = true) :
    (posPT sc).map Prod.fst = sc.args.filter argIsPositional := by
  have h1 : (posPT sc).map Prod.fst
      = ((withCounters (sc.args.filter fun x => surfaced x) 0).map Prod.fst).filter
          argIsPositional := by
    rw [posPT, List.filter_map]
    rfl
  rw [h1, withCounters_map_fst, List.filter_filter]
  exact List.filter_congr fun a ha => by
    by_cases hp : argIsPositional a = true
    · simp [hp, hpos_surf a ha hp]
    · simp [hp, Bool.and_eq_false_iff]

lemma posList_strict (sc : Subcommand)
    (hinc : (((toolOf sc).properties.filterMap fun p => p.2.xPosition)).Pairwise (· < ·)) :
    ((posPT sc).map fun w => w.1.index.getD w.2).Pairwise (· < ·) := by
  have h1 : ((toolOf sc).properties.filterMap fun p => p.2.xPosition)
      = (posPT sc).map fun w => w.1.index.getD w.2 := by
    rw [toolOf_properties, List.filterMap_map, posPT]
    have h2 : ((fun p => PropSchema.xPosition p.2) ∘ fun x => (x.1.id, mkSchema x.1 x.2))
        = fun (e : Arg × Nat) =>
            if argIsPositional e.1 then some (e.1.index.getD e.2) else none := by
      funext e
      simp [mkSchema]
    rw [h2, filterMap_ite (fun e : Arg × Nat => argIsPositional e.1)
      (fun e : Arg × Nat => e.1.index.getD e.2)]
  rwa [h1] at hinc

lemma entries_perm (sc : Subcommand) (m : List (String × Json)) (n : Nat)
    (hids : (sc.args.map Arg.id).Nodup)
    (hpos_surf : ∀ a ∈ sc.args, argIsPositional a = true → surfaced a = true)
    (hkeys : (m.map Prod.fst).Nodup)
    (hsurf : ∀ e ∈ m, ∃ a, a ∈ sc.args ∧ surfaced a = true ∧ a.id = e.1)
    (hsup : ∀ a ∈ (sc.args.filter argIsPositional).take n, ∃ v, (a.id, v) ∈ m)
    (hmem : ∀ e ∈ m, keyIsPositional (some (toolOf sc)) e.1 = true →
        e.1 ∈ ((sc.args.filter argIsPositional).take n).map Arg.id) :
    List.Perm (m.filterMap (posEntry (some (toolOf sc)))) (targetEntries sc m n) := by
  have hndf : ((sc.args.filter fun x => surfaced x).map Arg.id).Nodup :=
    ((List.filter_sublist _).map Arg.id).nodup hids
  have hEkeys : ((m.filterMap (posEntry (some (toolOf sc)))).map (fun x => x.1)).Nodup := by
    rw [posEntry_keys]
    exact ((List.filter_sublist m).map Prod.fst).nodup hkeys
  have hE : (m.filterMap (posEntry (some (toolOf sc)))).Nodup := hEkeys.of_map
  have hPids : ((sc.args.filter argIsPositional).map Arg.id).Nodup :=
    ((List.filter_sublist _).map Arg.id).nodup hids
  have hPtake : ((sc.args.filter argIsPositional).take n).map Arg.id
      = ((posPT sc).take n).map (fun w => w.1.id) := by
    rw [← posPT_map_fst sc hpos_surf, ← List.map_take, List.map_map]
    rfl
  have hTkeys : ((targetEntries sc m n).map (fun x => x.1)).Nodup := by
    rw [targetEntries, List.map_map]
    show (((posPT sc).take n).map fun w => w.1.id).Nodup
    rw [← hPtake]
    exact ((List.take_sublist _ _).map Arg.id).nodup hPids
  have hT : (targetEntries sc m n).Nodup := hTkeys.of_map
  refine (List.perm_ext_iff_of_nodup hE hT).mpr fun x => ⟨?_, ?_⟩
  · intro hx
    obtain ⟨e, hem, hpe⟩ := List.mem_filterMap.mp hx
    rcases e with ⟨k, v⟩
    by_cases hkp : keyIsPositional (some (toolOf sc)) k = true
    · have hxval : x = (k, v, keyPosition (some (toolOf sc)) k 0) := by
        rw [posEntry, if_pos hkp] at hpe
        exact (Option.some.injEq _ _ ▸ hpe).symm
      obtain ⟨a, ha, has, haid⟩ := hsurf (k, v) hem
      subst haid
      have hkpa : argIsPositional a = true := by
        rw [← keyIsPositional_eq sc hids ha has]; exact hkp
      obtain ⟨c, hw, hkpos⟩ := keyPosition_eq sc hids ha has hkpa
      have hidmem := hmem (a.id, v) hem hkp
      rw [hPtake] at hidmem
      obtain ⟨w, hwtk, hwid⟩ := List.mem_map.mp hidmem
      have hwPT2 : w ∈ posPT sc := List.mem_of_mem_take hwtk
      have hwW : w ∈ withCounters (sc.args.filter fun x => surfaced x) 0 :=
        (List.mem_filter.mp hwPT2).1
      have hweq : w = (a, c) := withCounters_uniq _ 0 hndf hwW hw hwid
      have hlk : m.lookup a.id = some v := lookup_eq_some_of_nodup m hkeys a.id v hem
      rw [targetEntries]
      apply List.mem_map.mpr
      refine ⟨(a, c), hweq ▸ hwtk, ?_⟩
      show (a.id, (m.lookup a.id).getD Json.null, a.index.getD c) = x
      rw [hlk, hxval, hkpos 0]
      rfl
    · rw [posEntry, if_neg hkp] at hpe
      cases hpe
  · intro hx
    rw [targetEntries] at hx
    obtain ⟨w, hwtk, hwx⟩ := List.mem_map.mp hx
    have hwPT : w ∈ posPT sc := List.mem_of_mem_take hwtk
    have hfilter := List.mem_filter.mp hwPT
    have hw1f : w.1 ∈ sc.args.filter (fun x => surfaced x) := by
      have h0 : w.1 ∈ (withCounters (sc.args.filter fun x => surfaced x) 0).map Prod.fst :=
        List.mem_map.mpr ⟨w, hfilter.1, rfl⟩
      rwa [withCounters_map_fst] at h0
    have hw1args : w.1 ∈ sc.args := (List.mem_filter.mp hw1f).1
    have hw1surf : surfaced w.1 = true := (List.mem_filter.mp hw1f).2
    have hkpa : argIsPositional w.1 = true := hfilter.2
    have hw1P : w.1 ∈ (sc.args.filter argIsPositional).take n := by
      rw [← posPT_map_fst sc hpos_surf, ← List.map_take]
      exact List.mem_map.mpr ⟨w, hwtk, rfl⟩
    obtain ⟨v, hmv⟩ := hsup w.1 hw1P
    have hkp : keyIsPositional (some (toolOf sc)) w.1.id = true := by
      rw [keyIsPositional_eq sc hids hw1args hw1surf]; exact hkpa
    obtain ⟨c, hwc, hkpos⟩ := keyPosition_eq sc hids hw1args hw1surf hkpa
    have hweq : (w.1, c) = w := withCounters_uniq _ 0 hndf hwc hfilter.1 rfl
    have hc : c = w.2 := congrArg Prod.snd hweq
    have hlk : m.lookup w.1.id = some v := lookup_eq_some_of_nodup m hkeys _ v hmv
    apply List.mem_filterMap.mpr
    refine ⟨(w.1.id, v), hmv, ?_⟩
    show posEntry (some (toolOf sc)) (w.1.id, v) = some x
    rw [posEntry, if_pos hkp, hkpos 0, hc, ← hwx, hlk]
    rfl

lemma target_strict (sc : Subcommand) (m : List (String × Json)) (n : Nat)
    (hinc : (((toolOf sc).properties.filterMap fun p => p.2.xPosition)).Pairwise (· < ·)) :
    (targetEntries sc m n).Pairwise (fun a b => a.2.2 < b.2.2) := by
  rw [targetEntries]
  apply List.pairwise_map.mpr
  have h1 := posList_strict sc hinc
  have h2 : (((posPT sc).take n).map fun w => w.1.index.getD w.2).Pairwise (· < ·) := by
    rw [List.map_take]
    exact List.Pairwise.sublist (List.take_sublist _ _) h1
  exact List.pairwise_map.mp h2

lemma sorted_entries_eq (sc : Subcommand) (m : List (String × Json)) (n : Nat)
    (hids : (sc.args.map Arg.id).Nodup)
    (hpos_surf : ∀ a ∈ sc.args, argIsPositional a = true → surfaced a = true)
    (hkeys : (m.map Prod.fst).Nodup)
    (hsurf : ∀ e ∈ m, ∃ a, a ∈ sc.args ∧ surfaced a = true ∧ a.id = e.1)
    (hsup : ∀ a ∈ (sc.args.filter argIsPositional).take n, ∃ v, (a.id, v) ∈ m)
    (hmem : ∀ e ∈ m, keyIsPositional (some (toolOf sc)) e.1 = true →
        e.1 ∈ ((sc.args.filter argIsPositional).take n).map Arg.id)
    (hinc : (((toolOf sc).properties.filterMap fun p => p.2.xPosition)).Pairwise (· < ·)) :
    sortByPos (m.filterMap (posEntry (some (toolOf sc)))) = targetEntries sc m n := by
  have hperm0 := entries_perm sc m n hids hpos_surf hkeys hsurf hsup hmem
  have hstrict := target_strict sc m n hinc
  have hTnd : ((targetEntries sc m n).map fun e => e.2.2).Nodup := by
    exact (List.pairwise_map.mpr hstrict).imp fun h => Nat.ne_of_lt h
  apply eq_of_perm_sorted_nodupPos
  · exact (sortByPos_perm _).trans hperm0
  · exact sortByPos_sorted _
  · exact hstrict.imp fun h => Nat.le_of_lt h
  · exact (((sortByPos_perm _).trans hperm0).map fun e => e.2.2).nodup_iff.mpr hTnd

lemma marshal_at_tool (cmd : Schema) (toolName : String) (sc : Subcommand)
    (m : List (String × Json))
    (hsc : (cmd.find? fun x => x.name == toolName) = some sc) :
    marshalTokens (extractSubcommands cmd) toolName m
      = "mcp" :: toolName ::
          ((sortByPos (posOnly (some (toolOf sc)) m 0)).map (fun e => renderPositional e.2.1)
            ++ (m.filter fun e => !keyIsPositional (some (toolOf sc)) e.1).flatMap
                (fun e => namedTokens e.1 e.2)) := by
  have htool : ((extractSubcommands cmd).find? fun t => t.name == toolName)
      = some (toolOf sc) := by
    rw [find_tool, hsc]
    rfl
  simp only [marshalTokens, htool, partitionArgsAux_eq]
  simp

lemma tryGetMatches_cons (cmd : Schema) (prog sub : String) (rest : List String) :
    tryGetMatches cmd (prog :: sub :: rest)
      = match cmd.find? (fun sc => sc.name == sub) with
        | none => .error ("unrecognized subcommand " ++ sub)
        | some sc =>
          match parseTokens sc.args rest (sc.args.filter argIsPositional) [] with
          | .error e => .error e
          | .ok found =>
            if sc.args.any (fun a => a.required && (found.lookup a.id).isNone) then
              .error ("missing required arguments for " ++ sub)
            else .ok ⟨sc.name, found⟩ := rfl

/-! ### Claim theorems -/

/-- C3: unconditionally, the marshalled sequence is the synthetic
program name, the tool name, then the positional values (appended bare,
with no invocation-token prefix) as a permutation of the mapping's
positional entries, sorted ascending by their resolved position, then
all named-argument tokens; and provided every positional key carries an
explicit descriptor position and those positions are pairwise distinct,
the positional order is independent of the mapping's iteration order. -/
theorem marshal_token_order (tools : List Tool) (toolName : String)
    (m : List (String × Json)) :
    marshalTokens tools toolName m
        = ["mcp", toolName]
          ++ (sortedPositionals tools toolName m).map (fun e => renderPositional e.2.1)
          ++ namedSegment tools toolName m
      ∧ List.Perm (sortedPositionals tools toolName m)
          (posOnly (tools.find? fun t => t.name == toolName) m 0)
      ∧ (sortedPositionals tools toolName m).Pairwise (fun a b => a.2.2 ≤ b.2.2)
      ∧ ((∀ e ∈ m, keyIsPositional (tools.find? fun t => t.name == toolName) e.1 = true →
            (((lookupProp (tools.find? fun t => t.name == toolName) e.1).bind
                fun s => s.xPosition)).isSome) →
          ((m.filterMap (posEntry (tools.find? fun t => t.name == toolName))).map
              fun e => e.2.2).Nodup →
          ∀ m', List.Perm m' m →
            sortedPositionals tools toolName m' = sortedPositionals tools toolName m) := by
  refine ⟨marshalTokens_decompose tools toolName m, ?_, sortByPos_sorted _, ?_⟩
  · rw [sortedPositionals]
    exact sortByPos_perm _
  · intro hx hnd m' hp
    have hE : posOnly (tools.find? fun t => t.name == toolName) m 0
        = m.filterMap (posEntry (tools.find? fun t => t.name == toolName)) :=
      posOnly_eq_filterMap _ m hx 0
    have p3 : List.Perm (sortedPositionals tools toolName m)
        (m.filterMap (posEntry (tools.find? fun t => t.name == toolName))) := by
      rw [sortedPositionals, hE]
      exact sortByPos_perm _
    have hx' : ∀ e ∈ m', keyIsPositional (tools.find? fun t => t.name == toolName) e.1 = true →
        (((lookupProp (tools.find? fun t => t.name == toolName) e.1).bind
            fun s => s.xPosition)).isSome :=
      fun e he h => hx e (hp.mem_iff.mp he) h
    have hE' : posOnly (tools.find? fun t => t.name == toolName) m' 0
        = m'.filterMap (posEntry (tools.find? fun t => t.name == toolName)) :=
      posOnly_eq_filterMap _ m' hx' 0
    have p1 : List.Perm (sortedPositionals tools toolName m')
        (m'.filterMap (posEntry (tools.find? fun t => t.name == toolName))) := by
      rw [sortedPositionals, hE']
      exact sortByPos_perm _
    have p2 : List.Perm (m'.filterMap (posEntry (tools.find? fun t => t.name == toolName)))
        (m.filterMap (posEntry (tools.find? fun t => t.name == toolName))) :=
      hp.filterMap _
    refine eq_of_perm_sorted_nodupPos _ _ ((p1.trans p2).trans p3.symm)
      (sortByPos_sorted _) (sortByPos_sorted _) ?_
    exact (((p1.trans p2).map fun e => e.2.2)).nodup_iff.mpr hnd

theorem marshal_token_order_witness :
    (marshalTokens (extractSubcommands c3cmd) "mixed" c3args
        = ["mcp", "mixed"]
          ++ (sortedPositionals (extractSubcommands c3cmd) "mixed" c3args).map
              (fun e => renderPositional e.2.1)
          ++ namedSegment (extractSubcommands c3cmd) "mixed" c3args
      ∧ List.Perm (sortedPositionals (extractSubcommands c3cmd) "mixed" c3args)
          (posOnly ((extractSubcommands c3cmd).find? fun t => t.name == "mixed") c3args 0)
      ∧ (sortedPositionals (extractSubcommands c3cmd) "mixed" c3args).Pairwise
          (fun a b => a.2.2 ≤ b.2.2)
      ∧ ∀ m', List.Perm m' c3args →
          sortedPositionals (extractSubcommands c3cmd) "mixed" m'
            = sortedPositionals (extractSubcommands c3cmd) "mixed" c3args) := by
  have h := marshal_token_order (extractSubcommands c3cmd) "mixed" c3args
  exact ⟨h.1, h.2.1, h.2.2.1, h.2.2.2 (by decide) (by decide)⟩

/-- C3 counterexample: with colliding descriptor positions the stable
sort preserves mapping iteration order, so two mappings that are
permutations of each other marshal to different token sequences — the
positional order is not independent of the mapping's iteration order. -/
theorem marshal_order_tie_counterexample :
    List.Perm [("p2", Json.str "b"), ("p1", Json.str "a")]
        [("p1", Json.str "a"), ("p2", Json.str "b")]
      ∧ marshalTokens (extractSubcommands c3tie) "tie"
          [("p2", Json.str "b"), ("p1", Json.str "a")]
        ≠ marshalTokens (extractSubcommands c3tie) "tie"
          [("p1", Json.str "a"), ("p2", Json.str "b")] :=
  ⟨List.Perm.swap _ _ _, by decide⟩

/-- C7: a token sequence the parser rejects yields a protocol-level
InvalidArguments error carrying the parser's message; a successful match
whose conversion fails yields a protocol-level error carrying that
message; a protocol result is only ever produced when both steps
succeed (no silent recovery, the handler is never consulted on failure);
an unknown tool name is rejected by the parser; and a request missing a
required named argument is rejected with InvalidArguments. -/
theorem callTool_error_taxonomy {V : Type} (cmd : Schema)
    (conv : Matches → Except String V) (st : HandlerState V)
    (toolName : String) (args? : Option (List (String × Json))) :
    (∀ e, tryGetMatches cmd
          (marshalTokens (extractSubcommands cmd) toolName (args?.getD [])) = .error e →
        callTool cmd conv st toolName args? = .protocolError ("Invalid arguments: " ++ e))
      ∧ (∀ m e, tryGetMatches cmd
            (marshalTokens (extractSubcommands cmd) toolName (args?.getD [])) = .ok m →
          conv m = .error e →
          callTool cmd conv st toolName args?
            = .protocolError ("Failed to parse subcommand: " ++ e))
      ∧ ((cmd.find? fun sc => sc.name == toolName) = none →
          ∃ e, callTool cmd conv st toolName args?
            = .protocolError ("Invalid arguments: " ++ e))
      ∧ (∀ r, callTool cmd conv st toolName args? = .ok r →
          ∃ m v, tryGetMatches cmd
              (marshalTokens (extractSubcommands cmd) toolName (args?.getD [])) = .ok m
            ∧ conv m = .ok v)
      ∧ callTool (V := Matches) c7cmd (fun mt => .ok mt) ⟨none⟩ "add"
          (some [("a", Json.num 5)])
        = .protocolError ("Invalid arguments: " ++ "missing required arguments for add") := by
  refine ⟨?_, ?_, ?_, ?_, by decide⟩
  · intro e he; simp [callTool, he]
  · intro m e hm he; simp [callTool, hm, he]
  · intro hfind
    have hm : marshalTokens (extractSubcommands cmd) toolName (args?.getD [])
        = "mcp" :: toolName
          :: (posSegment (extractSubcommands cmd) toolName (args?.getD [])
              ++ namedSegment (extractSubcommands cmd) toolName (args?.getD [])) := by
      simpa using marshalTokens_decompose (extractSubcommands cmd) toolName (args?.getD [])
    have herr : tryGetMatches cmd
        (marshalTokens (extractSubcommands cmd) toolName (args?.getD []))
        = .error ("unrecognized subcommand " ++ toolName) := by
      rw [hm]; simp [tryGetMatches, hfind]
    exact ⟨"unrecognized subcommand " ++ toolName, by simp [callTool, herr]⟩
  · intro r hr
    cases hp : tryGetMatches cmd
        (marshalTokens (extractSubcommands cmd) toolName (args?.getD [])) with
    | error e => simp [callTool, hp] at hr
    | ok m =>
      cases hc : conv m with
      | error e => simp [callTool, hp, hc] at hr
      | ok v => exact ⟨m, v, rfl, hc⟩

theorem callTool_error_taxonomy_witness :
    ∃ e, callTool (V := Matches) c7cmd (fun mt => .ok mt) ⟨none⟩ "nope" none
        = .protocolError ("Invalid arguments: " ++ e) :=
  (callTool_error_taxonomy c7cmd (fun mt => .ok mt) ⟨none⟩ "nope" none).2.2.1 (by decide)

/-- C5: the descriptor's properties align one-to-one, in order, with the
subcommand's surfaced arguments (those not hidden and whose identifier is
neither help nor version), each property named by the argument identifier
and typed boolean exactly when the arity minimum value count (absent
meaning zero) is zero, string otherwise; the required list is exactly the
surfaced arguments marked required, in order. -/
theorem descriptor_content (sc : Subcommand) :
    List.Forall₂ (fun (p : String × PropSchema) (a : Arg) =>
        p.1 = a.id
          ∧ (a.numArgsMin.getD 0 = 0 → p.2.type = "boolean")
          ∧ (a.numArgsMin.getD 0 ≠ 0 → p.2.type = "string"))
      (toolOf sc).properties (sc.args.filter fun a => surfaced a)
      ∧ (toolOf sc).required
        = (sc.args.filter fun a => surfaced a && a.required).map fun a => a.id := by
  refine ⟨?_, toolOf_required sc⟩
  rw [toolOf_properties]
  exact descriptor_content_aux _ 0

theorem descriptor_content_witness :
    List.Forall₂ (fun (p : String × PropSchema) (a : Arg) =>
        p.1 = a.id
          ∧ (a.numArgsMin.getD 0 = 0 → p.2.type = "boolean")
          ∧ (a.numArgsMin.getD 0 ≠ 0 → p.2.type = "string"))
      (toolOf c5sc).properties (c5sc.args.filter fun a => surfaced a)
      ∧ (toolOf c5sc).required
        = (c5sc.args.filter fun a => surfaced a && a.required).map fun a => a.id :=
  descriptor_content c5sc

/-- C6: a surfaced argument's property is marked positional exactly when
the argument carries neither a long nor a short invocation token; only
positional properties carry a position; and that position is the declared
index when the schema provides one, otherwise the count of positional
arguments encountered so far whose position was assigned by the running
counter (those without a declared index). -/
theorem positional_classification (sc : Subcommand) (i : Nat)
    (h1 : i < (toolOf sc).properties.length)
    (h2 : i < (sc.args.filter fun a => surfaced a).length) :
    (((toolOf sc).properties.get ⟨i, h1⟩).2.xPositional = some true
        ↔ (((sc.args.filter fun a => surfaced a).get ⟨i, h2⟩).long = none
            ∧ ((sc.args.filter fun a => surfaced a).get ⟨i, h2⟩).short = none))
      ∧ ((((toolOf sc).properties.get ⟨i, h1⟩).2.xPosition).isSome
        ↔ (((sc.args.filter fun a => surfaced a).get ⟨i, h2⟩).long = none
            ∧ ((sc.args.filter fun a => surfaced a).get ⟨i, h2⟩).short = none))
      ∧ ((((sc.args.filter fun a => surfaced a).get ⟨i, h2⟩).long = none
            ∧ ((sc.args.filter fun a => surfaced a).get ⟨i, h2⟩).short = none) →
          ((toolOf sc).properties.get ⟨i, h1⟩).2.xPosition
            = some (((sc.args.filter fun a => surfaced a).get ⟨i, h2⟩).index.getD
                ((((sc.args.filter fun a => surfaced a).take i).filter fun b =>
                    argIsPositional b && b.index.isNone).length))) := by
  have h1w : i < ((withCounters (sc.args.filter fun a => surfaced a) 0).map fun e =>
      (e.1.id, mkSchema e.1 e.2)).length := by
    rw [← toolOf_properties]; exact h1
  have hwc : i < (withCounters (sc.args.filter fun a => surfaced a) 0).length := by
    simpa using h1w
  have hget : (toolOf sc).properties.get ⟨i, h1⟩
      = ((sc.args.filter fun a => surfaced a).get ⟨i, h2⟩ |>.id,
         mkSchema ((sc.args.filter fun a => surfaced a).get ⟨i, h2⟩)
           (0 + (((sc.args.filter fun a => surfaced a).take i).filter fun b =>
               argIsPositional b && b.index.isNone).length)) := by
    rw [List.get_of_eq (toolOf_properties sc)]
    rw [show ∀ h, ((withCounters (sc.args.filter fun a => surfaced a) 0).map fun e =>
        (e.1.id, mkSchema e.1 e.2)).get ⟨i, h⟩
      = (fun e => (e.1.id, mkSchema e.1 e.2))
          ((withCounters (sc.args.filter fun a => surfaced a) 0).get ⟨i, hwc⟩)
      from fun h => by simp [List.get_eq_getElem, List.getElem_map],
      withCounters_get _ _ _ _ h2]
  rw [hget]
  rw [Nat.zero_add]
  rw [← argIsPositional_iff]
  by_cases hp : argIsPositional ((sc.args.filter fun a => surfaced a).get ⟨i, h2⟩) = true
  · simp [mkSchema, hp]
  · simp [mkSchema, hp]

theorem positional_classification_witness :
    (((toolOf c5sc).properties.get ⟨0, by decide⟩).2.xPositional = some true
        ↔ (((c5sc.args.filter fun a => surfaced a).get ⟨0, by decide⟩).long = none
            ∧ ((c5sc.args.filter fun a => surfaced a).get ⟨0, by decide⟩).short = none))
      ∧ ((((toolOf c5sc).properties.get ⟨0, by decide⟩).2.xPosition).isSome
        ↔ (((c5sc.args.filter fun a => surfaced a).get ⟨0, by decide⟩).long = none
            ∧ ((c5sc.args.filter fun a => surfaced a).get ⟨0, by decide⟩).short = none))
      ∧ ((((c5sc.args.filter fun a => surfaced a).get ⟨0, by decide⟩).long = none
            ∧ ((c5sc.args.filter fun a => surfaced a).get ⟨0, by decide⟩).short = none) →
          ((toolOf c5sc).properties.get ⟨0, by decide⟩).2.xPosition
            = some (((c5sc.args.filter fun a => surfaced a).get ⟨0, by decide⟩).index.getD
                ((((c5sc.args.filter fun a => surfaced a).take 0).filter fun b =>
                    argIsPositional b && b.index.isNone).length))) :=
  positional_classification c5sc 0 (by decide) (by decide)

/-- C1 (amended): for a request whose tool name resolves to a descriptor
of a schema with unique argument identifiers, no hidden positional
arguments, no hidden (non-surfaced) required arguments and strictly
increasing extracted positions, whose mapping has unique keys, supplies
only surfaced descriptor properties with values of the declared types
(strings not beginning with a double dash), supplies exactly the first n
positional arguments for some n, and supplies every argument of the
descriptor's required set — boolean (flag) properties with true —
marshalling then parsing does not fail with InvalidArguments. -/
theorem roundtrip_parse_ok (cmd : Schema) (toolName : String) (sc : Subcommand)
    (m : List (String × Json)) (n : Nat)
    (hsc : (cmd.find? fun x => x.name == toolName) = some sc)
    (hids : (sc.args.map Arg.id).Nodup)
    (hpos_surf : ∀ a ∈ sc.args, argIsPositional a = true → surfaced a = true)
    (hkeys : (m.map Prod.fst).Nodup)
    (htyped : ∀ e ∈ m, ∃ a, a ∈ sc.args ∧ surfaced a = true ∧ a.id = e.1
        ∧ (a.numArgsMin.getD 0 = 0 → ∃ b, e.2 = Json.bool b)
        ∧ (a.numArgsMin.getD 0 ≠ 0 → ∃ sv, e.2 = Json.str sv ∧ stripDashes sv = none))
    (hinc : (((toolOf sc).properties.filterMap fun p => p.2.xPosition)).Pairwise (· < ·))
    (hsup : ∀ a ∈ (sc.args.filter argIsPositional).take n, ∃ v, (a.id, v) ∈ m)
    (hmem : ∀ e ∈ m, keyIsPositional (some (toolOf sc)) e.1 = true →
        e.1 ∈ ((sc.args.filter argIsPositional).take n).map Arg.id)
    (hreq_surf : ∀ a ∈ sc.args, a.required = true → surfaced a = true)
    (hreq : ∀ k ∈ (toolOf sc).required,
        ∃ v, (k, v) ∈ m ∧ v ≠ Json.bool false) :
    ∃ mt, tryGetMatches cmd
        (marshalTokens (extractSubcommands cmd) toolName m) = .ok mt := by
  have hndf : ((sc.args.filter fun x => surfaced x).map Arg.id).Nodup :=
    ((List.filter_sublist _).map Arg.id).nodup hids
  have hx : ∀ e ∈ m, keyIsPositional (some (toolOf sc)) e.1 = true →
      (((lookupProp (some (toolOf sc)) e.1).bind fun s => s.xPosition)).isSome := by
    intro e hem hkp
    obtain ⟨a, ha, has, haid, _, _⟩ := htyped e hem
    have hkpa : argIsPositional a = true := by
      rw [← keyIsPositional_eq sc hids ha has, haid]; exact hkp
    obtain ⟨c, _, hl⟩ := lookupProp_toolOf sc hids ha has
    rw [← haid, hl]
    simp [mkSchema, hkpa]
  have hEeq : posOnly (some (toolOf sc)) m 0 = m.filterMap (posEntry (some (toolOf sc))) :=
    posOnly_eq_filterMap _ m hx 0
  have hsurf : ∀ e ∈ m, ∃ a, a ∈ sc.args ∧ surfaced a = true ∧ a.id = e.1 :=
    fun e he => (htyped e he).elim fun a h => ⟨a, h.1, h.2.1, h.2.2.1⟩
  have hsorted := sorted_entries_eq sc m n hids hpos_surf hkeys hsurf hsup hmem hinc
  have hmarshal := marshal_at_tool cmd toolName sc m hsc
  rw [hEeq, hsorted] at hmarshal
  -- the positional token list
  have hstrip : ∀ t ∈ (targetEntries sc m n).map (fun e => renderPositional e.2.1),
      stripDashes t = none := by
    intro t ht
    obtain ⟨x, hxT, rfl⟩ := List.mem_map.mp ht
    have hxE : x ∈ m.filterMap (posEntry (some (toolOf sc))) := by
      have hx2 : x ∈ sortByPos (m.filterMap (posEntry (some (toolOf sc)))) := by
        rw [hsorted]; exact hxT
      exact (sortByPos_perm _).mem_iff.mp hx2
    obtain ⟨e, hem, hpe⟩ := List.mem_filterMap.mp hxE
    rcases e with ⟨k, v⟩
    by_cases hkp : keyIsPositional (some (toolOf sc)) k = true
    · rw [posEntry, if_pos hkp] at hpe
      obtain ⟨a, ha, has, haid, htb, hts⟩ := htyped (k, v) hem
      cases hpe
      by_cases h0 : a.numArgsMin.getD 0 = 0
      · obtain ⟨b, hb⟩ := htb h0
        simp only at hb
        rw [show ((k, v, keyPosition (some (toolOf sc)) k 0) :
            String × Json × Nat).2.1 = v from rfl, hb]
        exact stripDashes_renderBool b
      · obtain ⟨sv, hsv, hstr⟩ := hts h0
        simp only at hsv
        rw [show ((k, v, keyPosition (some (toolOf sc)) k 0) :
            String × Json × Nat).2.1 = v from rfl, hsv]
        exact hstr
    · rw [posEntry, if_neg hkp] at hpe
      cases hpe
  have hPlen : (posPT sc).length = (sc.args.filter argIsPositional).length := by
    rw [← posPT_map_fst sc hpos_surf]
    simp
  have hlen : ((targetEntries sc m n).map (fun e => renderPositional e.2.1)).length
      ≤ (sc.args.filter argIsPositional).length := by
    simp only [targetEntries, List.length_map, List.length_take]
    omega
  have hphase1 := parseTokens_positional sc.args
    ((targetEntries sc m n).map (fun e => renderPositional e.2.1))
    (sc.args.filter argIsPositional) []
    ((m.filter fun e => !keyIsPositional (some (toolOf sc)) e.1).flatMap
      (fun e => namedTokens e.1 e.2))
    hstrip hlen
  -- identify the positional records
  have hLen2 : ((targetEntries sc m n).map (fun e => renderPositional e.2.1)).length
      = ((posPT sc).take n).length := by
    simp [targetEntries]
  have hPtakeL : (sc.args.filter argIsPositional).take
        ((targetEntries sc m n).map (fun e => renderPositional e.2.1)).length
      = ((posPT sc).take n).map Prod.fst := by
    rw [hLen2, ← posPT_map_fst sc hpos_surf]
    have h3 : ((posPT sc).take n).length = (((posPT sc).map Prod.fst).take n).length := by
      simp
    rw [h3, take_of_take_length, List.map_take]
  have hposToks : (targetEntries sc m n).map (fun e => renderPositional e.2.1)
      = ((posPT sc).take n).map fun w =>
          renderPositional ((m.lookup w.1.id).getD Json.null) := by
    rw [targetEntries, List.map_map]
    rfl
  have hzip : (((sc.args.filter argIsPositional).take
          ((targetEntries sc m n).map (fun e => renderPositional e.2.1)).length).zip
        ((targetEntries sc m n).map (fun e => renderPositional e.2.1))).map
        (fun e => (e.1.id, some e.2))
      = ((posPT sc).take n).map fun w =>
          (w.1.id, some (renderPositional ((m.lookup w.1.id).getD Json.null))) := by
    rw [hPtakeL, hposToks, List.zip_map', List.map_map]
    rfl
  rw [hzip, List.nil_append] at hphase1
  -- the named phase
  have hNhyp : ∀ e ∈ (m.filter fun e => !keyIsPositional (some (toolOf sc)) e.1),
      ∃ a : Arg,
        (sc.args.find? fun x => !argIsPositional x && x.id == e.1) = some a
        ∧ a.id = e.1
        ∧ ((∃ b, e.2 = Json.bool b) ∨ (∃ sv, e.2 = Json.str sv))
        ∧ (∀ b, e.2 = Json.bool b → a.numArgsMin.getD 0 = 0)
        ∧ (∀ sv, e.2 = Json.str sv → a.numArgsMin.getD 0 ≠ 0) := by
    intro e heN
    have hem : e ∈ m := (List.mem_filter.mp heN).1
    have hkpf : keyIsPositional (some (toolOf sc)) e.1 = false := by
      have h4 := (List.mem_filter.mp heN).2
      simpa using h4
    obtain ⟨a, ha, has, haid, htb, hts⟩ := htyped e hem
    have hposf : argIsPositional a = false := by
      rw [← keyIsPositional_eq sc hids ha has, haid]
      exact hkpf
    refine ⟨a, ?_, haid, ?_, ?_, ?_⟩
    · rw [← haid]
      exact find_named_arg sc.args hids ha hposf
    · by_cases h0 : a.numArgsMin.getD 0 = 0
      · exact Or.inl (htb h0)
      · obtain ⟨sv, hsv, _⟩ := hts h0
        exact Or.inr ⟨sv, hsv⟩
    · intro b hb
      by_contra h0
      obtain ⟨sv, hsv, _⟩ := hts h0
      rw [hb] at hsv
      cases hsv
    · intro sv hsv h0
      obtain ⟨b, hb⟩ := htb h0
      rw [hsv] at hb
      cases hb
  have hphase2 := parseTokens_named sc.args
    (m.filter fun e => !keyIsPositional (some (toolOf sc)) e.1)
    ((sc.args.filter argIsPositional).drop
      ((targetEntries sc m n).map (fun e => renderPositional e.2.1)).length)
    (((posPT sc).take n).map fun w =>
      (w.1.id, some (renderPositional ((m.lookup w.1.id).getD Json.null))))
    hNhyp
  -- the complete found list
  set found := (((posPT sc).take n).map fun w =>
      (w.1.id, some (renderPositional ((m.lookup w.1.id).getD Json.null))))
    ++ (m.filter fun e => !keyIsPositional (some (toolOf sc)) e.1).flatMap
        (fun e => namedRecord e.1 e.2) with hfound
  -- the required check passes
  have hreq_args : ∀ a ∈ sc.args, a.required = true →
      ∃ v, (a.id, v) ∈ m ∧ v ≠ Json.bool false := by
    intro a ha hr
    apply hreq
    rw [toolOf_required]
    exact List.mem_map.mpr
      ⟨a, List.mem_filter.mpr ⟨ha, by simp [hreq_surf a ha hr, hr]⟩, rfl⟩
  have hcheck : (sc.args.any fun a => a.required && ((found).lookup a.id).isNone) = false := by
    rw [List.any_eq_false]
    intro a ha hcontra
    rw [Bool.and_eq_true] at hcontra
    obtain ⟨hr, hnone⟩ := hcontra
    have hsome : (found.lookup a.id).isSome = true := by
      rw [List.lookup_isSome_iff]
      obtain ⟨v, hmv, hvne⟩ := hreq_args a ha hr
      obtain ⟨a2, ha2, has2, haid2, htb2, hts2⟩ := htyped (a.id, v) hmv
      have haa : a2 = a := List.inj_on_of_nodup_map hids ha2 ha haid2
      subst haa
      by_cases hkpa : argIsPositional a2 = true
      · have hkp : keyIsPositional (some (toolOf sc)) a2.id = true := by
          rw [keyIsPositional_eq sc hids ha has2]
          exact hkpa
        have hidm := hmem (a2.id, v) hmv hkp
        have hPtake2 : ((sc.args.filter argIsPositional).take n).map Arg.id
            = ((posPT sc).take n).map (fun w => w.1.id) := by
          rw [← posPT_map_fst sc hpos_surf, ← List.map_take, List.map_map]
          rfl
        rw [hPtake2] at hidm
        obtain ⟨w, hwtk, hwid⟩ := List.mem_map.mp hidm
        refine ⟨(w.1.id, some (renderPositional ((m.lookup w.1.id).getD Json.null))),
          ?_, ?_⟩
        · rw [hfound]
          exact List.mem_append_left _ (List.mem_map.mpr ⟨w, hwtk, rfl⟩)
        · rw [hwid]
          exact beq_self_eq_true a2.id
      · have hkpf : keyIsPositional (some (toolOf sc)) a2.id = false := by
          rw [keyIsPositional_eq sc hids ha has2]
          simpa using hkpa
        have heN : (a2.id, v) ∈ (m.filter fun e =>
            !keyIsPositional (some (toolOf sc)) e.1) :=
          List.mem_filter.mpr ⟨hmv, by simp [hkpf]⟩
        by_cases h0 : a2.numArgsMin.getD 0 = 0
        · obtain ⟨b, hb⟩ := htb2 h0
          simp only at hb
          have hbt : b = true := by
            cases b
            · exact absurd (by rw [hb]) hvne
            · rfl
          refine ⟨(a2.id, none), ?_, beq_self_eq_true a2.id⟩
          rw [hfound]
          refine List.mem_append_right _ (List.mem_flatMap.mpr ⟨(a2.id, v), heN, ?_⟩)
          rw [show ((a2.id, v) : String × Json).2 = v from rfl, hb, hbt]
          simp [namedRecord]
        · obtain ⟨sv, hsv, _⟩ := hts2 h0
          simp only at hsv
          refine ⟨(a2.id, some sv), ?_, beq_self_eq_true a2.id⟩
          rw [hfound]
          refine List.mem_append_right _ (List.mem_flatMap.mpr ⟨(a2.id, v), heN, ?_⟩)
          rw [show ((a2.id, v) : String × Json).2 = v from rfl, hsv]
          simp [namedRecord]
    have hnone2 : found.lookup a.id = none := Option.isNone_iff_eq_none.mp hnone
    rw [hnone2] at hsome
    cases hsome
  -- assemble
  refine ⟨⟨sc.name, found⟩, ?_⟩
  rw [hmarshal, tryGetMatches_cons, hsc]
  show (match parseTokens sc.args
      ((targetEntries sc m n).map (fun e => renderPositional e.2.1)
        ++ (m.filter fun e => !keyIsPositional (some (toolOf sc)) e.1).flatMap
            (fun e => namedTokens e.1 e.2))
      (sc.args.filter argIsPositional) [] with
    | .error e => (.error e : Except String Matches)
    | .ok fnd =>
      if sc.args.any (fun a => a.required && (fnd.lookup a.id).isNone) then
        .error ("missing required arguments for " ++ toolName)
      else .ok ⟨sc.name, fnd⟩) = .ok ⟨sc.name, found⟩
  rw [hphase1, hphase2]
  show (if sc.args.any (fun a => a.required && (found.lookup a.id).isNone) then
      (.error ("missing required arguments for " ++ toolName) : Except String Matches)
    else .ok ⟨sc.name, found⟩) = .ok ⟨sc.name, found⟩
  rw [if_neg (by rw [hcheck]; exact Bool.false_ne_true)]

/-- C1 counterexample: a required boolean (flag) property supplied with
the JSON boolean false — a value of its declared type, satisfying the
required set — marshals to no token at all, and parsing fails with a
missing-required-argument error. -/
theorem roundtrip_required_flag_counterexample :
    (toolOf c1sc).required = ["f"]
      ∧ ((toolOf c1sc).properties.lookup "f").map PropSchema.type = some "boolean"
      ∧ tryGetMatches c1cmd
          (marshalTokens (extractSubcommands c1cmd) "t" [("f", Json.bool false)])
        = .error "missing required arguments for t" :=
  ⟨by decide, by decide, rfl⟩

theorem roundtrip_parse_ok_witness :
    ∃ mt, tryGetMatches c3cmd
        (marshalTokens (extractSubcommands c3cmd) "mixed" c3args) = .ok mt :=
  roundtrip_parse_ok c3cmd "mixed" c3mixed c3args 2
    (by decide) (by decide) (by decide) (by decide)
    (by
      intro e he
      simp only [c3args, List.mem_cons, List.not_mem_nil, or_false] at he
      rcases he with rfl | rfl | rfl
      · exact ⟨{ id := "output", numArgsMin := some 1, required := true },
          by decide, by decide, rfl,
          fun h0 => absurd h0 (by decide),
          fun _ => ⟨"bar.txt", rfl, by decide⟩⟩
      · exact ⟨{ id := "verbose", long := some "verbose", short := some 'v',
                 numArgsMin := some 0 },
          by decide, by decide, rfl,
          fun _ => ⟨true, rfl⟩,
          fun h0 => absurd (by decide) h0⟩
      · exact ⟨{ id := "input", numArgsMin := some 1, required := true },
          by decide, by decide, rfl,
          fun h0 => absurd h0 (by decide),
          fun _ => ⟨"foo.txt", rfl, by decide⟩⟩)
    (by decide)
    (by
      intro a ha
      simp only [c3mixed, List.filter, List.take, argIsPositional] at ha
      simp only [List.mem_cons, List.not_mem_nil, or_false] at ha
      rcases ha with rfl | rfl
      · exact ⟨Json.str "foo.txt", by simp [c3args]⟩
      · exact ⟨Json.str "bar.txt", by simp [c3args]⟩)
    (by decide)
    (by decide)
    (by
      intro k hk
      have hreqval : (toolOf c3mixed).required = ["input", "output"] := by decide
      rw [hreqval] at hk
      simp only [List.mem_cons, List.not_mem_nil, or_false] at hk
      rcases hk with rfl | rfl
      · exact ⟨Json.str "foo.txt", by simp [c3args], by simp⟩
      · exact ⟨Json.str "bar.txt", by simp [c3args], by simp⟩)

/-- C2: a named argument with value boolean true contributes exactly the
single flag token `--<name>` (and no value token) to the named segment;
a named argument with value boolean false contributes nothing, so the
marshalled sequence equals that of the mapping with the key removed. -/
theorem bool_named_encoding (tools : List Tool) (toolName k : String)
    (m₁ m₂ : List (String × Json))
    (h : keyIsPositional (tools.find? fun t => t.name == toolName) k = false) :
    marshalTokens tools toolName (m₁ ++ (k, Json.bool true) :: m₂)
        = ["mcp", toolName] ++ posSegment tools toolName (m₁ ++ m₂)
          ++ namedSegment tools toolName m₁
          ++ ("--" ++ k) :: namedSegment tools toolName m₂
      ∧ marshalTokens tools toolName (m₁ ++ (k, Json.bool false) :: m₂)
        = marshalTokens tools toolName (m₁ ++ m₂) := by
  constructor
  · rw [marshalTokens_decompose, posSegment_middle_named tools toolName k _ m₁ m₂ h,
      namedSegment_middle tools toolName k _ m₁ m₂ h]
    simp [namedTokens]
  · rw [marshalTokens_decompose, marshalTokens_decompose,
      posSegment_middle_named tools toolName k _ m₁ m₂ h,
      namedSegment_middle tools toolName k _ m₁ m₂ h]
    simp [namedTokens, namedSegment, List.filter_append]

theorem bool_named_encoding_witness :
    (marshalTokens (extractSubcommands c2cmd) "hello"
          ([("name", Json.str "Test")] ++ ("excited", Json.bool true) :: [])
        = ["mcp", "hello"] ++ posSegment (extractSubcommands c2cmd) "hello" ([("name", Json.str "Test")] ++ [])
          ++ namedSegment (extractSubcommands c2cmd) "hello" [("name", Json.str "Test")]
          ++ ("--" ++ "excited") :: namedSegment (extractSubcommands c2cmd) "hello" []
      ∧ marshalTokens (extractSubcommands c2cmd) "hello"
          ([("name", Json.str "Test")] ++ ("excited", Json.bool false) :: [])
        = marshalTokens (extractSubcommands c2cmd) "hello" ([("name", Json.str "Test")] ++ [])) :=
  bool_named_encoding (extractSubcommands c2cmd) "hello" "excited"
    [("name", Json.str "Test")] [] (by decide)



/-- C9: a call-tool request with an absent arguments field behaves
exactly as if an empty argument mapping had been supplied, and the
marshalled token sequence for an empty mapping is just the synthetic
program name followed by the tool name. -/
theorem absent_arguments_default {V : Type} (cmd : Schema)
    (conv : Matches → Except String V) (st : HandlerState V) (toolName : String) :
    callTool cmd conv st toolName none = callTool cmd conv st toolName (some [])
      ∧ marshalTokens (extractSubcommands cmd) toolName [] = ["mcp", toolName] := by
  refine ⟨rfl, ?_⟩
  simp [marshalTokens, partitionArgsAux, sortByPos]

/-- C10: the result of the list-tools operation is identical whether or
not a handler is registered — descriptor extraction never reads the
handler state. -/
theorem listTools_handler_independent {V : Type} (cmd : Schema)
    (st₁ st₂ : HandlerState V) : listTools cmd st₁ = listTools cmd st₂ := rfl

/-- C8: for a successfully parsed and converted command value, a handler
returning Ok text yields a success-flagged result with that text as sole
content item; a handler returning Err text yields an error-flagged
result carrying that text verbatim (not a protocol-level error); and
with no handler registered the call yields an error-flagged result with
the fixed explanatory message. -/
theorem dispatcher_outcome_mapping {V : Type} (cmd : Schema)
    (conv : Matches → Except String V) (h : V → Except String String)
    (toolName : String) (args? : Option (List (String × Json)))
    (m : Matches) (v : V)
    (hparse : tryGetMatches cmd
        (marshalTokens (extractSubcommands cmd) toolName (args?.getD [])) = .ok m)
    (hconv : conv m = .ok v) :
    (∀ out, h v = .ok out →
        callTool cmd conv ⟨some h⟩ toolName args? = .ok (.success [out]))
      ∧ (∀ e, h v = .error e →
        callTool cmd conv ⟨some h⟩ toolName args? = .ok (.errorResult [e]))
      ∧ callTool cmd conv (⟨none⟩ : HandlerState V) toolName args? =
          .ok (.errorResult [noHandlerMsg]) := by
  refine ⟨?_, ?_, ?_⟩ <;> intros <;> simp_all [callTool]

theorem dispatcher_outcome_mapping_witness :
    callTool c8cmd c8conv ⟨some fun s => .ok ("ran " ++ s)⟩ "t" none
        = .ok (.success ["ran t"])
      ∧ callTool c8cmd c8conv ⟨some fun _ => .error "boom"⟩ "t" none
        = .ok (.errorResult ["boom"])
      ∧ callTool c8cmd c8conv (⟨none⟩ : HandlerState String) "t" none
        = .ok (.errorResult [noHandlerMsg]) :=
  ⟨(dispatcher_outcome_mapping c8cmd c8conv _ "t" none ⟨"t", []⟩ "t" rfl rfl).1
      "ran t" rfl,
   (dispatcher_outcome_mapping c8cmd c8conv _ "t" none ⟨"t", []⟩ "t" rfl rfl).2.1
      "boom" rfl,
   (dispatcher_outcome_mapping c8cmd c8conv (fun s => .ok s) "t" none ⟨"t", []⟩ "t"
      rfl rfl).2.2⟩

/-- C4 counterexample: extraction does not filter hidden subcommands —
a schema whose single subcommand is hidden still yields one descriptor,
while the number of non-hidden subcommands is zero. -/
theorem descriptor_count_hidden_counterexample :
    (extractSubcommands [{ name := "secret", hide := true }]).length
      ≠ (([{ name := "secret", hide := true }] : Schema).filter fun sc => !sc.hide).length := by
  decide

/-- C4 (amended): the number of extracted descriptors equals the number
of top-level subcommands, hidden or not, one per subcommand in the
schema's own order; an empty subcommand list yields an empty descriptor
list. -/
theorem descriptor_count (cmd : Schema) :
    (extractSubcommands cmd).length = cmd.length
      ∧ (extractSubcommands cmd).map Tool.name = cmd.map Subcommand.name
      ∧ extractSubcommands ([] : Schema) = [] := by
  refine ⟨by simp [extractSubcommands], ?_, rfl⟩
  simp only [extractSubcommands, List.map_map]
  exact List.map_congr_left fun sc _ => rfl

end ClapMcp
